import Mathlib

/-!
Verification of the meetsum summary-processing core (internal/summary/processor.go
and the post-generation tail of cmd/root.go) against its specification.

The Go code is shallowly embedded: strings are Lean `String`s, the relevant
`strings.*` and `path/filepath` helpers are re-implemented over character lists
so that every definition is executable and kernel-reducible, and the filesystem
is modelled as an explicit list of file names / paths.  Each definition carries
a comment naming the Go function it embeds.
-/

namespace Meetsum

/-- Models Go `unicode.IsSpace` (the exact set of code points Go treats as
whitespace), used by `strings.TrimSpace`. -/
def goIsSpace (c : Char) : Bool :=
  c == '\t' || c == '\n' || c == '\u000B' || c == '\u000C' || c == '\r' || c == ' ' ||
  c == '\u0085' || c == ' ' || c == ' ' ||
  c == ' ' || c == ' ' || c == ' ' || c == ' ' || c == ' ' ||
  c == ' ' || c == ' ' || c == ' ' || c == ' ' || c == ' ' ||
  c == ' ' || c == ' ' || c == ' ' || c == ' ' || c == ' ' ||
  c == '　'

/-- Models Go `strings.TrimSpace`: drop leading and trailing whitespace. -/
def goTrimSpace (s : String) : String :=
  String.mk (((s.toList.dropWhile goIsSpace).reverse.dropWhile goIsSpace).reverse)

/-- Whether `sub` occurs as a contiguous sublist of the second argument
(leftmost scan); helper for Go `strings.Contains`. -/
def listContainsSub (sub : List Char) : List Char → Bool
  | [] => sub.isEmpty
  | c :: cs => sub.isPrefixOf (c :: cs) || listContainsSub sub cs

/-- Models Go `strings.Contains s sub`. -/
def strContains (s sub : String) : Bool :=
  listContainsSub sub.toList s.toList

/-- Models Go `strings.HasPrefix s pre`. -/
def goStartsWith (s pre : String) : Bool :=
  pre.toList.isPrefixOf s.toList

/-- Models Go `strings.HasSuffix s suf`. -/
def goEndsWith (s suf : String) : Bool :=
  suf.toList.isSuffixOf s.toList

/-- Index (in characters) of the first occurrence of `sub`, if any;
helper for Go `strings.Index`. -/
def listIndexOf (sub : List Char) : List Char → Option Nat
  | [] => if sub.isEmpty then some 0 else none
  | c :: cs =>
    if sub.isPrefixOf (c :: cs) then some 0
    else (listIndexOf sub cs).map (· + 1)

/-- Fuel-driven splitter on a non-empty separator; fuel `≥` input length makes
it total while keeping the recursion structural (kernel-reducible).
Helper for Go `strings.Split`. -/
def goSplitF (sep : List Char) : Nat → List Char → List (List Char)
  | _, [] => [[]]
  | 0, l => [l]
  | fuel + 1, c :: cs =>
    if sep.isPrefixOf (c :: cs) then
      [] :: goSplitF sep fuel (List.drop (sep.length - 1) cs)
    else
      match goSplitF sep fuel cs with
      | [] => [[c]]
      | s :: ss => (c :: s) :: ss

/-- Models Go `strings.Split s sep` for non-empty `sep` (the only way the
program calls it). -/
def goSplit (s sep : String) : List String :=
  (goSplitF sep.toList s.toList.length s.toList).map String.mk

/-- Models Go `strings.Join` with the given separator. -/
def goJoin (sep : String) : List String → String
  | [] => ""
  | [s] => s
  | s :: rest => s ++ sep ++ goJoin sep rest

/-- Fuel-driven replacement helper for Go `strings.ReplaceAll` (non-empty
pattern): leftmost non-overlapping occurrences, replacement not rescanned. -/
def replaceAllF (old new : List Char) : Nat → List Char → List Char
  | _, [] => []
  | 0, l => l
  | fuel + 1, c :: cs =>
    if old.isPrefixOf (c :: cs) then
      new ++ replaceAllF old new fuel (List.drop (old.length - 1) cs)
    else
      c :: replaceAllF old new fuel cs

/-- Models Go `strings.ReplaceAll s old new` for non-empty `old`. -/
def goReplaceAll (s old new : String) : String :=
  String.mk (replaceAllF old.toList new.toList s.toList.length s.toList)

/-- Models Go `strings.ToUpper` on the ASCII range (the code never relies on
non-ASCII case mapping). -/
def goToUpper (s : String) : String :=
  String.mk (s.toList.map Char.toUpper)

/-! ## Output Sanitizer (`cleanAIOutput`, processor.go lines 286-362) -/

/-- The noise filter of `cleanAIOutput`'s per-line loop: the disjunction of
`strings.Contains` checks at the top of the `for` body. -/
def isNoiseLine (line : String) : Bool :=
  strContains line "Loaded cached credentials" ||
  strContains line "Error executing tool" ||
  strContains line "Tool \"write_file\" not found" ||
  strContains line "I was unable to create" ||
  strContains line "Here is the content" ||
  strContains line "You can save it as"

/-- The per-line loop of `cleanAIOutput`: arguments are the remaining lines,
`inMarkdownBlock`, `foundMarkdownStart`, and the accumulated `markdownLines`;
returning the accumulator models Go's `break` on a closing fence. -/
def cleanLoop : List String → Bool → Bool → List String → List String
  | [], _, _, acc => acc
  | line :: rest, inMB, foundMS, acc =>
    if isNoiseLine line then
      cleanLoop rest inMB foundMS acc
    else if goStartsWith line "```markdown" then
      cleanLoop rest true true acc
    else if goStartsWith line "```" && inMB then
      acc
    else
      let acc1 := if inMB then acc ++ [line] else acc
      if !inMB && !foundMS && (strContains line "_SUMMARY_" || goStartsWith line "*_") then
        cleanLoop rest inMB true (acc1 ++ [line])
      else if foundMS && !inMB then
        cleanLoop rest inMB foundMS (acc1 ++ [line])
      else
        cleanLoop rest inMB foundMS acc1

/-- The `errorPatterns` slice of `cleanAIOutput`'s fallback pass. -/
def errorPatterns : List String :=
  ["Loaded cached credentials.",
   "Error executing tool write_file:",
   "Tool \"write_file\" not found in registry.",
   "I was unable to create the file directly.",
   "Here is the content for the meeting summary.",
   "You can save it as"]

/-- One step of the fallback pass: if `pat` occurs and a newline follows it,
keep only the text after that newline (Go: `cleanedOutput[idx+nextLine+1:]`). -/
def truncAfterPattern (s : String) (pat : String) : String :=
  match listIndexOf pat.toList s.toList with
  | none => s
  | some idx =>
    match listIndexOf ['\n'] (s.toList.drop idx) with
    | none => s
    | some nextLine => String.mk (s.toList.drop (idx + nextLine + 1))

/-- The fallback pass of `cleanAIOutput`: truncate after each error pattern in
order, strip fence markers, trim. -/
def fallbackClean (output : String) : String :=
  goTrimSpace
    (goReplaceAll (goReplaceAll (errorPatterns.foldl truncAfterPattern output)
      "```markdown" "") "```" "")

/-- Models `(*Processor).cleanAIOutput`: the line-oriented extraction pass and,
when it accumulates nothing, the fallback salvage pass on the raw output. -/
def cleanAIOutput (output : String) : String :=
  if (cleanLoop (goSplit output "\n") false false []).length > 0 then
    goTrimSpace (goJoin "\n" (cleanLoop (goSplit output "\n") false false []))
  else
    fallbackClean output

/-! ## `path/filepath` helpers (Unix rules, as used by the program) -/

/-- The element-processing loop of Go `filepath.Clean`: skip empty and `.`
elements, let `..` pop a previous element (kept literally at the start of a
relative path, dropped at the root of an absolute one). -/
def cleanElems (rooted : Bool) : List String → List String → List String
  | acc, [] => acc
  | acc, e :: rest =>
    if e == "" || e == "." then cleanElems rooted acc rest
    else if e == ".." then
      if !acc.isEmpty && !(acc.getLast? == some "..") then
        cleanElems rooted acc.dropLast rest
      else if rooted then cleanElems rooted acc rest
      else cleanElems rooted (acc ++ [".."]) rest
    else cleanElems rooted (acc ++ [e]) rest

/-- Models Go `filepath.Clean` on Unix paths. -/
def pathClean (p : String) : String :=
  if p = "" then "."
  else
    let rooted := goStartsWith p "/"
    let out := goJoin "/" (cleanElems rooted [] (goSplit p "/"))
    if rooted then (if out = "" then "/" else "/" ++ out)
    else (if out = "" then "." else out)

/-- Models Go `filepath.Join` on two components (join with `/`, then `Clean`;
empty components are skipped). -/
def pathJoin (a b : String) : String :=
  if a = "" && b = "" then ""
  else if a = "" then pathClean b
  else if b = "" then pathClean a
  else pathClean (a ++ "/" ++ b)

/-- Index of the last `/` in a character list, if any; helper for
`filepath.Dir`. -/
def lastSlashIdx : List Char → Option Nat
  | [] => none
  | c :: cs =>
    match lastSlashIdx cs with
    | some i => some (i + 1)
    | none => if c == '/' then some 0 else none

/-- Models Go `filepath.Dir` on Unix paths: everything up to and including the
final `/`, cleaned; `.` when there is no slash. -/
def pathDir (p : String) : String :=
  match lastSlashIdx p.toList with
  | none => pathClean ""
  | some i => pathClean (String.mk (p.toList.take (i + 1)))

/-- Models Go `filepath.Base` on Unix paths: strip trailing slashes, then keep
everything after the final remaining `/`. -/
def pathBase (p : String) : String :=
  if p = "" then "."
  else
    let stripped := (p.toList.reverse.dropWhile (fun c => c == '/')).reverse
    if stripped.isEmpty then "/"
    else String.mk ((stripped.reverse.takeWhile (fun c => !(c == '/'))).reverse)

/-! ## Date parsing (`time.Parse("2006-01-02", s)`) -/

/-- Numeric value of a decimal digit character. -/
def digitVal (c : Char) : Nat := c.toNat - 48

/-- Gregorian leap-year rule, as used by Go's `time` package for all years. -/
def isLeapYear (y : Nat) : Bool :=
  y % 4 == 0 && (y % 100 != 0 || y % 400 == 0)

/-- Days in a month, as validated by Go `time.Parse`. -/
def daysInMonth (y m : Nat) : Nat :=
  if m = 2 then (if isLeapYear y then 29 else 28)
  else if m = 4 ∨ m = 6 ∨ m = 9 ∨ m = 11 then 30
  else 31

/-- Models the success (and value) of Go `time.Parse("2006-01-02", s)` on
ten-character candidates: four digits, `-`, two digits, `-`, two digits, with
the month in 1..12 and the day within the month's length. -/
def parseDateYMD (s : String) : Option (Nat × Nat × Nat) :=
  match s.toList with
  | [y1, y2, y3, y4, c1, m1, m2, c2, d1, d2] =>
    if y1.isDigit && y2.isDigit && y3.isDigit && y4.isDigit && c1 == '-' &&
       m1.isDigit && m2.isDigit && c2 == '-' && d1.isDigit && d2.isDigit then
      let y := ((digitVal y1 * 10 + digitVal y2) * 10 + digitVal y3) * 10 + digitVal y4
      let m := digitVal m1 * 10 + digitVal m2
      let d := digitVal d1 * 10 + digitVal d2
      if 1 ≤ m && m ≤ 12 && 1 ≤ d && d ≤ daysInMonth y m then some (y, m, d)
      else none
    else none
  | _ => none

/-! ## Transcript Locator (`FindTranscriptFile`, processor.go lines 47-75) -/

/-- Models the anchored regex `^\d{4}-\d{2}-\d{2}-transcript\.txt$` used by
both the locator and the archiver. -/
def matchesDatedPattern (name : String) : Bool :=
  match name.toList with
  | y1 :: y2 :: y3 :: y4 :: c1 :: m1 :: m2 :: c2 :: d1 :: d2 :: rest =>
    y1.isDigit && y2.isDigit && y3.isDigit && y4.isDigit && c1 == '-' &&
    m1.isDigit && m2.isDigit && c2 == '-' && d1.isDigit && d2.isDigit &&
    rest == "-transcript.txt".toList
  | _ => false

/-- The locator's per-match filter: dated-pattern regex, then
`time.Parse("2006-01-02", filename[:10])`. -/
def isValidDatedTranscript (name : String) : Bool :=
  matchesDatedPattern name && (parseDateYMD (String.mk (name.toList.take 10))).isSome

/-- A meeting directory as the locator sees it: its path and the (sorted, as
`filepath.Glob` returns them) names of the files it contains. -/
structure MeetingDirListing where
  path : String
  files : List String
deriving DecidableEq

/-- Models `(*Processor).FindTranscriptFile`.  `transcriptName` is the
configured standard name (`config.Files.Transcript`, default
`transcript.txt`); `os.Stat` success is modelled as membership in the
directory listing; the glob `*-transcript.txt` keeps names with that suffix. -/
def FindTranscriptFile (transcriptName : String) (dir : MeetingDirListing) :
    Except String String :=
  if dir.files.contains transcriptName then
    Except.ok (pathJoin dir.path transcriptName)
  else
    match (dir.files.filter (fun f => goEndsWith f "-transcript.txt")).find?
        isValidDatedTranscript with
    | some m => Except.ok (pathJoin dir.path m)
    | none => Except.error ("no transcript file found in " ++ dir.path ++
        " (looked for transcript.txt and YYYY-MM-DD-transcript.txt)")

/-! ## Path Metadata Extractor (processor.go lines 143-182) -/

/-- Models `(*Processor).ExtractCustomerName` (first and second components of
its result; the error is always nil).  The segment after `/Customers/` wins,
else the base name of `filepath.Dir` of the meeting directory. -/
def ExtractCustomerName (meetingDir : String) : String × String :=
  let raw :=
    if strContains meetingDir "/Customers/" then
      match goSplit meetingDir "/Customers/" with
      | _ :: second :: _ => (goSplit second "/").headD ""
      | _ => ""
    else ""
  let raw := if raw = "" then pathBase (pathDir meetingDir) else raw
  (raw, goToUpper raw)

/-- The scan loop of `ExtractDateFromPath`: first path segment of byte length
10 with hyphens at offsets 4 and 7 that also parses as a calendar date.
(For any segment that can qualify the characters are ASCII, so character
length and Go's byte length agree.) -/
def findDatePart : List String → String
  | [] => ""
  | part :: rest =>
    if part.length = 10 && part.toList.getD 4 ' ' == '-' && part.toList.getD 7 ' ' == '-' then
      if (parseDateYMD part).isSome then part else findDatePart rest
    else findDatePart rest

/-- Models `(*Processor).ExtractDateFromPath`. -/
def ExtractDateFromPath (meetingDir : String) : String :=
  findDatePart (goSplit meetingDir "/")

/-! ## Output Writer / Transcript Archiver (processor.go lines 184-199, 364-427) -/

/-- Models `(*Processor).GenerateOutputFilename`: date-prefixed when a date was
extracted from the path, undated otherwise. -/
def GenerateOutputFilename (meetingDir : String) : String :=
  let customerNameProper := (ExtractCustomerName meetingDir).1
  let date := ExtractDateFromPath meetingDir
  if date ≠ "" then date ++ "-" ++ customerNameProper ++ "-cadence-call-summary.md"
  else customerNameProper ++ "-cadence-call-summary.md"

/-- A file write performed by the program: target path and exact content. -/
structure FileWrite where
  path : String
  content : String
deriving DecidableEq

/-- Models `(*Processor).SaveSummary` (the write itself always succeeding):
returns the output path and the write performed, whose content gains a
trailing newline exactly when the summary does not already end with one. -/
def SaveSummary (meetingDir : String) (content : String) : String × FileWrite :=
  let outputPath := pathJoin meetingDir (GenerateOutputFilename meetingDir)
  let content1 := if goEndsWith content "\n" then content else content ++ "\n"
  (outputPath, ⟨outputPath, content1⟩)

/-- The processor state and filesystem contents that
`RenameTranscriptFile` reads and writes: the meeting directory, the stored
transcript path (empty until a transcript is located), and the full paths of
the files that exist. -/
structure RenameState where
  meetingDir : String
  transcriptPath : String
  files : List String
deriving DecidableEq

/-- Models `(*Processor).RenameTranscriptFile`.  `Except.ok s` stands for
Go's `(s, nil)`, `Except.error m` for `("", error m)`; the returned state
carries the updated transcript path and filesystem (the rename syscall itself
is assumed to succeed when attempted). -/
def RenameTranscriptFile (st : RenameState) : Except String String × RenameState :=
  if st.transcriptPath = "" then (Except.ok "", st)
  else if matchesDatedPattern (pathBase st.transcriptPath) then (Except.ok "", st)
  else if ExtractDateFromPath st.meetingDir = "" then (Except.ok "", st)
  else
    let newFilename := ExtractDateFromPath st.meetingDir ++ "-transcript.txt"
    let newPath := pathJoin st.meetingDir newFilename
    if st.files.contains newPath then
      (Except.error ("cannot rename transcript: " ++ newFilename ++ " already exists"), st)
    else
      (Except.ok newFilename,
       { st with transcriptPath := newPath,
                 files := st.files.erase st.transcriptPath ++ [newPath] })

/-! ## The post-generation tail of `runMeetSum` (cmd/root.go lines 776-809) -/

/-- Outcome of the run tail: success (with output path and the name the
transcript was renamed to, empty if not renamed) or terminal failure. -/
inductive RunOutcome where
  | success (outputPath : String) (renamedTo : String)
  | failure (msg : String)
deriving DecidableEq

/-- Models `runMeetSum` from the point where `GenerateSummary` has returned
`summary` without error: save the summary, then check for an empty summary
(failing the run), then attempt the transcript rename (a rename error only
warns).  The second component lists the file writes performed. -/
def runMeetSumAfterGenerate (st : RenameState) (summary : String) :
    RunOutcome × List FileWrite × RenameState :=
  let saved := SaveSummary st.meetingDir summary
  if summary = "" then (RunOutcome.failure "empty summary generated", [saved.2], st)
  else
    match RenameTranscriptFile st with
    | (Except.ok renamed, st2) => (RunOutcome.success saved.1 renamed, [saved.2], st2)
    | (Except.error _, st2) => (RunOutcome.success saved.1 "", [saved.2], st2)

/-! ## Specification-side definitions (stated from the spec's words, for
comparison with the source-derived definitions) -/

/-- The claim's qualifying condition for a date segment: exactly ten
characters, hyphens at offsets 4 and 7, and a valid `YYYY-MM-DD` calendar
date. -/
def specIsDateSegment (part : String) : Bool :=
  (part.length = 10 && part.toList.getD 4 ' ' == '-' && part.toList.getD 7 ' ' == '-') &&
  (parseDateYMD part).isSome

/-- Number of newline characters at the very end of a string (to state "ends
with exactly one trailing newline"). -/
def trailingNewlineCount (s : String) : Nat :=
  (s.toList.reverse.takeWhile (fun c => c == '\n')).length

/-! ## Helper lemmas -/

theorem cleanLoop_noise_skip (line : String) (rest : List String) (inMB foundMS : Bool)
    (acc : List String) (h : isNoiseLine line = true) :
    cleanLoop (line :: rest) inMB foundMS acc = cleanLoop rest inMB foundMS acc := by
  simp [cleanLoop, h]

theorem cleanLoop_fence_open (line : String) (rest : List String) (inMB foundMS : Bool)
    (acc : List String) (h1 : isNoiseLine line = false)
    (h2 : goStartsWith line "```markdown" = true) :
    cleanLoop (line :: rest) inMB foundMS acc = cleanLoop rest true true acc := by
  simp [cleanLoop, h1, h2]

theorem cleanLoop_in_block (line : String) (rest : List String) (foundMS : Bool)
    (acc : List String) (h1 : isNoiseLine line = false)
    (h2 : goStartsWith line "```markdown" = false)
    (h3 : goStartsWith line "```" = false) :
    cleanLoop (line :: rest) true foundMS acc = cleanLoop rest true foundMS (acc ++ [line]) := by
  simp [cleanLoop, h1, h2, h3]

theorem cleanLoop_fence_close (line : String) (rest : List String) (foundMS : Bool)
    (acc : List String) (h1 : isNoiseLine line = false)
    (h2 : goStartsWith line "```markdown" = false)
    (h3 : goStartsWith line "```" = true) :
    cleanLoop (line :: rest) true foundMS acc = acc := by
  simp [cleanLoop, h1, h2, h3]

theorem cleanLoop_all_noise (lines : List String)
    (h : ∀ l ∈ lines, isNoiseLine l = true) :
    ∀ inMB foundMS acc, cleanLoop lines inMB foundMS acc = acc := by
  induction lines with
  | nil => intro _ _ _; rfl
  | cons line rest ih =>
    intro inMB foundMS acc
    rw [cleanLoop_noise_skip line rest inMB foundMS acc (h line (by simp))]
    exact ih (fun l hl => h l (by simp [hl])) inMB foundMS acc

theorem goEndsWith_newline_append (s : String) : goEndsWith (s ++ "\n") "\n" = true := by
  unfold goEndsWith
  have h : (s ++ "\n").toList = s.toList ++ ['\n'] := by
    simp [String.toList, String.data_append]
  rw [h]
  simp [List.isSuffixOf, List.reverse_append, List.isPrefixOf]

theorem findDatePart_eq_find (parts : List String) :
    findDatePart parts = (parts.find? specIsDateSegment).getD "" := by
  induction parts with
  | nil => rfl
  | cons part rest ih =>
    by_cases h1 : (part.length = 10 && part.toList.getD 4 ' ' == '-' &&
        part.toList.getD 7 ' ' == '-') = true
    · by_cases h2 : (parseDateYMD part).isSome = true
      · have hspec : specIsDateSegment part = true := by
          unfold specIsDateSegment; rw [h1, h2]; rfl
        rw [List.find?_cons_of_pos _ hspec]
        unfold findDatePart
        rw [if_pos h1, if_pos h2]
        rfl
      · have hspec : ¬ specIsDateSegment part = true := by
          unfold specIsDateSegment
          simp only [Bool.not_eq_true] at h2
          rw [h1, h2]
          decide
        rw [List.find?_cons_of_neg _ hspec]
        unfold findDatePart
        rw [if_pos h1, if_neg h2]
        exact ih
    · have hspec : ¬ specIsDateSegment part = true := by
        unfold specIsDateSegment
        simp only [Bool.not_eq_true] at h1
        rw [h1]
        simp
      rw [List.find?_cons_of_neg _ hspec]
      unfold findDatePart
      rw [if_neg h1]
      exact ih

/-! ## Claim theorems -/

/-- C2: whenever the meeting directory contains both the configured standard
transcript name and a valid dated transcript, `FindTranscriptFile` returns
the standard-named file, unconditionally. -/
theorem findTranscriptFile_standard_precedence (transcriptName : String)
    (dir : MeetingDirListing) (dated : String)
    (hstd : dir.files.contains transcriptName = true)
    (hdated : dated ∈ dir.files) (hvalid : isValidDatedTranscript dated = true) :
    FindTranscriptFile transcriptName dir = Except.ok (pathJoin dir.path transcriptName) := by
  unfold FindTranscriptFile
  rw [if_pos hstd]

/-- Witness for C2: a directory holding `transcript.txt` and a valid dated
transcript yields the standard file. -/
theorem findTranscriptFile_standard_precedence_witness :
    FindTranscriptFile "transcript.txt"
        ⟨"/m", ["transcript.txt", "2024-02-01-transcript.txt"]⟩ =
      Except.ok (pathJoin "/m" "transcript.txt") ∧
    pathJoin "/m" "transcript.txt" = "/m/transcript.txt" :=
  ⟨findTranscriptFile_standard_precedence "transcript.txt"
      ⟨"/m", ["transcript.txt", "2024-02-01-transcript.txt"]⟩ "2024-02-01-transcript.txt"
      (by decide) (by decide) (by decide),
   by decide⟩

/-- C7: when the standard transcript is absent and every glob match fails the
dated-name shape or calendar validation, `FindTranscriptFile` selects none of
them and fails with the not-found error naming the directory and both
attempted patterns. -/
theorem findTranscriptFile_notFound (transcriptName : String) (dir : MeetingDirListing)
    (hstd : dir.files.contains transcriptName = false)
    (hnone : ∀ f ∈ dir.files, goEndsWith f "-transcript.txt" = true →
      isValidDatedTranscript f = false) :
    FindTranscriptFile transcriptName dir =
      Except.error ("no transcript file found in " ++ dir.path ++
        " (looked for transcript.txt and YYYY-MM-DD-transcript.txt)") := by
  have hfind : (dir.files.filter (fun f => goEndsWith f "-transcript.txt")).find?
      isValidDatedTranscript = none := by
    rw [List.find?_eq_none]
    intro f hf
    rw [List.mem_filter] at hf
    simp [hnone f hf.1 hf.2]
  unfold FindTranscriptFile
  rw [if_neg (by rw [hstd]; decide), hfind]

/-- Witness for C7: a directory holding only a `DD-MM-YYYY`-ordered transcript
name fails with the not-found error. -/
theorem findTranscriptFile_notFound_witness :
    FindTranscriptFile "transcript.txt" ⟨"/m", ["02-04-2026-transcript.txt", "notes.md"]⟩ =
      Except.error ("no transcript file found in " ++ "/m" ++
        " (looked for transcript.txt and YYYY-MM-DD-transcript.txt)") :=
  findTranscriptFile_notFound "transcript.txt" ⟨"/m", ["02-04-2026-transcript.txt", "notes.md"]⟩
    (by decide) (by decide)

/-- C5: the extracted date is the first path segment that is ten characters
long, hyphenated at offsets 4 and 7, and a valid calendar date; the empty
sentinel otherwise. -/
theorem extractDateFromPath_first_valid_segment (meetingDir : String) :
    ExtractDateFromPath meetingDir =
      ((goSplit meetingDir "/").find? specIsDateSegment).getD "" :=
  findDatePart_eq_find (goSplit meetingDir "/")

/-- C6 (amended): with no `/Customers/` segment, the customer name is
`filepath.Base (filepath.Dir meetingDir)` — the parent directory's base name
for cleaned paths without a trailing slash. -/
theorem extractCustomerName_fallback_parent (dir : String)
    (h : strContains dir "/Customers/" = false) :
    (ExtractCustomerName dir).1 = pathBase (pathDir dir) := by
  simp [ExtractCustomerName, h]

/-- Witness for C6: on the normalized path `/tmp/meeting1/2024-02-01` the
fallback yields the parent's base name `meeting1`. -/
theorem extractCustomerName_fallback_parent_witness :
    (ExtractCustomerName "/tmp/meeting1/2024-02-01").1 =
      pathBase (pathDir "/tmp/meeting1/2024-02-01") ∧
    pathBase (pathDir "/tmp/meeting1/2024-02-01") = "meeting1" :=
  ⟨extractCustomerName_fallback_parent "/tmp/meeting1/2024-02-01" (by decide), by decide⟩

/-- Counterexample for C6 as stated: on the spec's literal directory string
`/tmp/meeting1/2024-02-01/` (trailing slash kept, no `Customers` segment) the
extractor returns `2024-02-01`, not `meeting1`, because `filepath.Dir` strips
only the trailing slash. -/
theorem extractCustomerName_trailing_slash_counterexample :
    strContains "/tmp/meeting1/2024-02-01/" "/Customers/" = false ∧
    (ExtractCustomerName "/tmp/meeting1/2024-02-01/").1 = "2024-02-01" ∧
    (ExtractCustomerName "/tmp/meeting1/2024-02-01/").1 ≠ "meeting1" :=
  ⟨by decide, by decide, by decide⟩

/-- C3: an input whose lines are the `markdown` fence opener, `# Title`,
`Body`, a closing fence line, and arbitrary trailing lines sanitizes to
exactly `# Title\nBody`: processing stops at the closing fence and the
trailing lines are discarded. -/
theorem cleanAIOutput_fenced_block (s closer : String) (rest : List String)
    (hs : goSplit s "\n" = "```markdown" :: "# Title" :: "Body" :: closer :: rest)
    (hc1 : isNoiseLine closer = false)
    (hc2 : goStartsWith closer "```markdown" = false)
    (hc3 : goStartsWith closer "```" = true) :
    cleanAIOutput s = "# Title\n" ++ "Body" := by
  unfold cleanAIOutput
  rw [hs]
  rw [cleanLoop_fence_open _ _ _ _ _ (by decide) (by decide)]
  rw [cleanLoop_in_block _ _ _ _ (by decide) (by decide) (by decide)]
  rw [cleanLoop_in_block _ _ _ _ (by decide) (by decide) (by decide)]
  rw [cleanLoop_fence_close _ _ _ _ hc1 hc2 hc3]
  rw [if_pos (by decide)]
  decide

/-- Witness for C3: the spec's example, a fenced summary followed by trailing
chatter. -/
theorem cleanAIOutput_fenced_block_witness :
    cleanAIOutput "```markdown\n# Title\nBody\n```\ntrailing chatter\nHere is the content" =
      "# Title\n" ++ "Body" :=
  cleanAIOutput_fenced_block
    "```markdown\n# Title\nBody\n```\ntrailing chatter\nHere is the content"
    "```" ["trailing chatter", "Here is the content"]
    (by decide) (by decide) (by decide) (by decide)

/-- C4 (amended): when every line of the input is a diagnostic-noise line and
the input has no fence marker and no summary-title marker, the structured pass
accumulates nothing and the sanitizer returns the fallback salvage of the raw
text — which need not be the empty string. -/
theorem cleanAIOutput_noise_only_salvage (output : String)
    (hnoise : ∀ l ∈ goSplit output "\n", isNoiseLine l = true)
    (hnofence : strContains output "```" = false)
    (hnotitle : strContains output "_SUMMARY_" = false)
    (hnostar : ∀ l ∈ goSplit output "\n", goStartsWith l "*_" = false) :
    cleanAIOutput output = fallbackClean output := by
  unfold cleanAIOutput
  rw [cleanLoop_all_noise (goSplit output "\n") hnoise false false []]
  rfl

/-- Witness for C4's amended statement: a single noise line falls through to
the salvage pass. -/
theorem cleanAIOutput_noise_only_salvage_witness :
    cleanAIOutput "Loaded cached credentials" = fallbackClean "Loaded cached credentials" :=
  cleanAIOutput_noise_only_salvage "Loaded cached credentials"
    (by decide) (by decide) (by decide) (by decide)

/-- Counterexample for C4 as stated: `Loaded cached credentials` is a pure
noise line with no fence and no title marker, yet the sanitizer returns it
unchanged (non-empty) — the salvage patterns carry trailing periods the noise
filter does not, and the final line is never truncated away. -/
theorem cleanAIOutput_noise_only_counterexample :
    (∀ l ∈ goSplit "Loaded cached credentials" "\n", isNoiseLine l = true) ∧
    strContains "Loaded cached credentials" "```" = false ∧
    strContains "Loaded cached credentials" "_SUMMARY_" = false ∧
    (∀ l ∈ goSplit "Loaded cached credentials" "\n", goStartsWith l "*_" = false) ∧
    cleanAIOutput "Loaded cached credentials" = "Loaded cached credentials" ∧
    cleanAIOutput "Loaded cached credentials" ≠ "" :=
  ⟨by decide, by decide, by decide, by decide, by decide, by decide⟩

/-- C8 (amended): the saved content ends with at least one newline — exactly
one newline is appended when the summary does not end with one, and content
already ending with a newline is written unchanged. -/
theorem saveSummary_newline_handling (meetingDir content : String) :
    (goEndsWith content "\n" = false →
      (SaveSummary meetingDir content).2.content = content ++ "\n") ∧
    (goEndsWith content "\n" = true →
      (SaveSummary meetingDir content).2.content = content) ∧
    goEndsWith (SaveSummary meetingDir content).2.content "\n" = true := by
  refine ⟨?_, ?_, ?_⟩
  · intro h
    simp [SaveSummary, h]
  · intro h
    simp [SaveSummary, h]
  · by_cases h : goEndsWith content "\n" = true
    · simp [SaveSummary, h]
    · simp only [Bool.not_eq_true] at h
      simp only [SaveSummary, h, Bool.false_eq_true, if_false]
      exact goEndsWith_newline_append content

/-- Witness for C8's amended statement: content without a trailing newline
gains exactly one. -/
theorem saveSummary_newline_handling_witness :
    (SaveSummary "/m/2024-02-01" "# Summary").2.content = "# Summary" ++ "\n" ∧
    goEndsWith (SaveSummary "/m/2024-02-01" "# Summary").2.content "\n" = true :=
  ⟨(saveSummary_newline_handling "/m/2024-02-01" "# Summary").1 (by decide),
   (saveSummary_newline_handling "/m/2024-02-01" "# Summary").2.2⟩

/-- Counterexample for C8 as stated: content already ending in two newlines is
written unchanged, so the written content does not end with exactly one
trailing newline. -/
theorem saveSummary_double_newline_counterexample :
    (SaveSummary "/m/2024-02-01" "x\n\n").2.content = "x\n\n" ∧
    trailingNewlineCount (SaveSummary "/m/2024-02-01" "x\n\n").2.content = 2 :=
  ⟨by decide, by decide⟩

/-- C9: for a located transcript, the archiver skips silently (no error, no
state change) when the name is already dated or no date was extracted from
the path; fails without renaming when the dated destination already exists;
and on success returns the new name and updates the stored transcript path. -/
theorem renameTranscriptFile_contract (st : RenameState) (h : st.transcriptPath ≠ "") :
    ((matchesDatedPattern (pathBase st.transcriptPath) = true ∨
        ExtractDateFromPath st.meetingDir = "") →
      RenameTranscriptFile st = (Except.ok "", st)) ∧
    (matchesDatedPattern (pathBase st.transcriptPath) = false →
      ExtractDateFromPath st.meetingDir ≠ "" →
      st.files.contains (pathJoin st.meetingDir
        (ExtractDateFromPath st.meetingDir ++ "-transcript.txt")) = true →
      RenameTranscriptFile st =
        (Except.error ("cannot rename transcript: " ++
          (ExtractDateFromPath st.meetingDir ++ "-transcript.txt") ++ " already exists"),
         st)) ∧
    (matchesDatedPattern (pathBase st.transcriptPath) = false →
      ExtractDateFromPath st.meetingDir ≠ "" →
      st.files.contains (pathJoin st.meetingDir
        (ExtractDateFromPath st.meetingDir ++ "-transcript.txt")) = false →
      (RenameTranscriptFile st).1 =
        Except.ok (ExtractDateFromPath st.meetingDir ++ "-transcript.txt") ∧
      (RenameTranscriptFile st).2.transcriptPath =
        pathJoin st.meetingDir (ExtractDateFromPath st.meetingDir ++ "-transcript.txt")) := by
  refine ⟨?_, ?_, ?_⟩
  · rintro (hd | hd)
    · unfold RenameTranscriptFile
      rw [if_neg h, if_pos hd]
    · by_cases hm : matchesDatedPattern (pathBase st.transcriptPath) = true
      · unfold RenameTranscriptFile
        rw [if_neg h, if_pos hm]
      · simp only [Bool.not_eq_true] at hm
        unfold RenameTranscriptFile
        rw [if_neg h, if_neg (by rw [hm]; decide), if_pos hd]
  · intro hm hd hc
    unfold RenameTranscriptFile
    rw [if_neg h, if_neg (by rw [hm]; decide), if_neg hd, if_pos hc]
  · intro hm hd hc
    unfold RenameTranscriptFile
    rw [if_neg h, if_neg (by rw [hm]; decide), if_neg hd, if_neg (by rw [hc]; decide)]
    exact ⟨rfl, rfl⟩

/-- Witness for C9 (success branch): `transcript.txt` in a dated directory is
renamed and the stored path updated. -/
theorem renameTranscriptFile_contract_witness :
    (RenameTranscriptFile ⟨"/c/2024-03-05", "/c/2024-03-05/transcript.txt",
        ["/c/2024-03-05/transcript.txt"]⟩).1 = Except.ok "2024-03-05-transcript.txt" ∧
    (RenameTranscriptFile ⟨"/c/2024-03-05", "/c/2024-03-05/transcript.txt",
        ["/c/2024-03-05/transcript.txt"]⟩).2.transcriptPath =
      "/c/2024-03-05/2024-03-05-transcript.txt" := by
  have h := (renameTranscriptFile_contract
      ⟨"/c/2024-03-05", "/c/2024-03-05/transcript.txt", ["/c/2024-03-05/transcript.txt"]⟩
      (by decide)).2.2 (by decide) (by decide) (by decide)
  exact ⟨h.1.trans (by rfl), h.2.trans (by decide)⟩

/-- C10: calling the archiver before any transcript has been located (stored
transcript path empty) returns no error, performs no rename, and leaves the
state unchanged. -/
theorem renameTranscriptFile_unset_noop (st : RenameState) (h : st.transcriptPath = "") :
    RenameTranscriptFile st = (Except.ok "", st) := by
  unfold RenameTranscriptFile
  rw [if_pos h]

/-- Witness for C10: a state with an empty transcript path is returned
untouched. -/
theorem renameTranscriptFile_unset_noop_witness :
    RenameTranscriptFile ⟨"/c/2024-03-05", "", ["/c/2024-03-05/notes.md"]⟩ =
      (Except.ok "", ⟨"/c/2024-03-05", "", ["/c/2024-03-05/notes.md"]⟩) :=
  renameTranscriptFile_unset_noop ⟨"/c/2024-03-05", "", ["/c/2024-03-05/notes.md"]⟩ rfl

/-- C1: with an AI invocation that exits successfully but whose standard
output sanitizes to the empty string, `runMeetSum` does fail with the
empty-summary error — but only after `SaveSummary` has already written the
output file (containing a single newline) into the meeting directory.  The
spec requires that no output file be written in this situation. -/
theorem runMeetSum_empty_summary_still_writes_file :
    cleanAIOutput "Loaded cached credentials.\n" = "" ∧
    runMeetSumAfterGenerate
        ⟨"/X/Customers/Acme/2024-01-15", "/X/Customers/Acme/2024-01-15/transcript.txt",
         ["/X/Customers/Acme/2024-01-15/transcript.txt"]⟩
        (cleanAIOutput "Loaded cached credentials.\n") =
      (RunOutcome.failure "empty summary generated",
       [⟨"/X/Customers/Acme/2024-01-15/2024-01-15-Acme-cadence-call-summary.md", "\n"⟩],
       ⟨"/X/Customers/Acme/2024-01-15", "/X/Customers/Acme/2024-01-15/transcript.txt",
        ["/X/Customers/Acme/2024-01-15/transcript.txt"]⟩) :=
  ⟨by decide, by decide⟩

end Meetsum
